import Mathlib

/-!
Verification development for the smart_file repository.

Shallow embedding of the three core subsystems:
* the inference gateway (`src/core/model_logic.py`): the OpenAI-compatible
  streaming decoder of `call_model_stream` and its preflight error checks;
* the semantic index (`src/core/explorer.py`): `index_directory`, `search`,
  `cancel_indexing` of `SemanticExplorer`;
* the orchestrator (`src/core/chat_agent.py`): `get_response_stream` and
  `_extract_xml_tag`.

External collaborators (the HTTP transport, the chromadb vector store, the
embedding model, `os.stat`/`os.walk`, the environment, `json.dumps`) are
modelled as explicit parameters; Python standard-library string and JSON
primitives used by the code are modelled as executable Lean functions.
-/

namespace SmartFile

/-! ## Python string primitives used by the decoder

These model the exact CPython behaviours the gateway code relies on:
`bytes.decode('utf-8', errors='replace')`, `str.splitlines`, `str.strip`,
`str.split(sep, 1)` and the `in` / `startswith` operators. -/

/-- Is `b` a UTF-8 continuation byte (`0x80–0xBF`)? -/
def isCont (b : Nat) : Bool := 0x80 ≤ b && b < 0xC0

/-- The Unicode replacement character U+FFFD, produced by `errors='replace'`. -/
def repl : Char := Char.ofNat 0xFFFD

/-- One step of UTF-8 decoding with CPython's `errors='replace'` policy:
decode one scalar value, or consume one maximal subpart of an ill-formed
sequence and produce a single U+FFFD.  Returns the decoded character and the
remaining bytes. -/
def utf8Step (b : Nat) (rest : List Nat) : Char × List Nat :=
  if b < 0x80 then (Char.ofNat b, rest)
  else if b < 0xC2 then (repl, rest)
  else if b < 0xE0 then
    match rest with
    | c1 :: r => if isCont c1 then (Char.ofNat ((b - 0xC0) * 64 + (c1 - 0x80)), r) else (repl, rest)
    | [] => (repl, [])
  else if b < 0xF0 then
    let lo1 := if b = 0xE0 then 0xA0 else 0x80
    let hi1 := if b = 0xED then 0xA0 else 0xC0
    match rest with
    | c1 :: r1 =>
      if lo1 ≤ c1 && c1 < hi1 then
        match r1 with
        | c2 :: r2 =>
          if isCont c2 then
            (Char.ofNat ((b - 0xE0) * 4096 + (c1 - 0x80) * 64 + (c2 - 0x80)), r2)
          else (repl, r1)
        | [] => (repl, [])
      else (repl, rest)
    | [] => (repl, [])
  else if b < 0xF5 then
    let lo1 := if b = 0xF0 then 0x90 else 0x80
    let hi1 := if b = 0xF4 then 0x90 else 0xC0
    match rest with
    | c1 :: r1 =>
      if lo1 ≤ c1 && c1 < hi1 then
        match r1 with
        | c2 :: r2 =>
          if isCont c2 then
            match r2 with
            | c3 :: r3 =>
              if isCont c3 then
                (Char.ofNat ((b - 0xF0) * 262144 + (c1 - 0x80) * 4096 + (c2 - 0x80) * 64 + (c3 - 0x80)), r3)
              else (repl, r2)
            | [] => (repl, [])
          else (repl, r1)
        | [] => (repl, [])
      else (repl, rest)
    | [] => (repl, [])
  else (repl, rest)

/-- Fuelled driver for UTF-8 decoding; the fuel (the byte count) is ample
since every step consumes at least one byte. -/
def utf8Go : Nat → List Nat → List Char
  | 0, _ => []
  | _, [] => []
  | f + 1, b :: rest =>
    let s := utf8Step b rest
    s.1 :: utf8Go f s.2

/-- Model of `bytes.decode('utf-8', errors='replace')`, as applied by the gateway to
each received chunk (`chunk.decode('utf-8', errors='replace')`). -/
def utf8DecodeReplace (l : List Nat) : List Char := utf8Go l.length l

/-- Characters treated as line boundaries by Python `str.splitlines`. -/
def isLineBreakChar (c : Char) : Bool :=
  c = '\n' || c = '\r' || c = Char.ofNat 0x0B || c = Char.ofNat 0x0C ||
  c = Char.ofNat 0x1C || c = Char.ofNat 0x1D || c = Char.ofNat 0x1E ||
  c = Char.ofNat 0x85 || c = Char.ofNat 0x2028 || c = Char.ofNat 0x2029

/-- Worker for `str.splitlines`: `acc` is the current line, reversed. -/
def splitLinesGo : List Char → List Char → List (List Char)
  | acc, [] => if acc.isEmpty then [] else [acc.reverse]
  | acc, '\r' :: '\n' :: rest => acc.reverse :: splitLinesGo [] rest
  | acc, c :: rest =>
    if isLineBreakChar c then acc.reverse :: splitLinesGo [] rest
    else splitLinesGo (c :: acc) rest

/-- Python `str.splitlines()`, used on each SSE event (`event_str.splitlines()`). -/
def splitLines (l : List Char) : List (List Char) := splitLinesGo [] l

/-- Whitespace stripped by Python `str.strip()` (the ASCII/latin subset;
none of the wire protocols produce the exotic Unicode spaces). -/
def isPySpace (c : Char) : Bool :=
  c = ' ' || c = '\t' || c = '\n' || c = '\r' || c = Char.ofNat 0x0B ||
  c = Char.ofNat 0x0C || c = Char.ofNat 0x1C || c = Char.ofNat 0x1D ||
  c = Char.ofNat 0x1E || c = Char.ofNat 0x1F || c = Char.ofNat 0x85

/-- Python `str.strip()`. -/
def pyStripL (l : List Char) : List Char :=
  ((l.dropWhile isPySpace).reverse.dropWhile isPySpace).reverse

/-- Python `str.startswith` on character lists (pattern first). -/
def startsWithL : List Char → List Char → Bool
  | [], _ => true
  | _ :: _, [] => false
  | p :: ps, x :: xs => p = x && startsWithL ps xs

/-- Contiguous-substring test: Python's `in` operator on strings
(needle second). -/
def containsSub : List Char → List Char → Bool
  | [], pat => pat.isEmpty
  | l@(_ :: rest), pat => startsWithL pat l || containsSub rest pat

/-- Python `sub in hay` for `String`s. -/
def strContains (hay sub : String) : Bool := containsSub hay.data sub.data

/-- Python `buffer.split(sep, 1)` for the two-newline event delimiter:
split at the first occurrence of `"\n\n"`, returning the part
before it and the part after it, or `none` when the delimiter is absent. -/
def splitEvent : List Char → Option (List Char × List Char)
  | [] => none
  | c :: rest =>
    if c = '\n' ∧ rest.head? = some '\n' then some ([], rest.tail)
    else (splitEvent rest).map (fun p => (c :: p.1, p.2))

/-! ## A model of `json.loads`

The gateway calls `json.loads` on each `data:` payload and then navigates
`data["choices"][0]["delta"]["content"]`.  We model the JSON values and a
recursive-descent parser for the grammar the providers emit (null, booleans,
integer numbers, strings with the simple escapes, arrays, objects).  Inputs
outside this subset (floats, `\uXXXX` escapes) make the parser fail, which
the decoder treats exactly like a `json.JSONDecodeError`: the line is
skipped. -/

/-- JSON values as produced by `json.loads`. -/
inductive Json where
  | jnull
  | jbool (b : Bool)
  | jnum (n : Int)
  | jstr (s : List Char)
  | jarr (xs : List Json)
  | jobj (kvs : List (List Char × Json))

/-- The `U+007B` opening-brace character. -/
def lbrace : Char := Char.ofNat 0x7B

/-- The `U+007D` closing-brace character. -/
def rbrace : Char := Char.ofNat 0x7D

/-- JSON insignificant whitespace (RFC 8259: space, tab, LF, CR). -/
def skipWs (l : List Char) : List Char :=
  l.dropWhile (fun c => c = ' ' || c = '\t' || c = '\n' || c = '\r')

/-- Parse the rest of a JSON string after the opening quote, handling the
single-character escapes. -/
def parseStr : List Char → Option (List Char × List Char)
  | [] => none
  | '"' :: r => some ([], r)
  | '\\' :: e :: r =>
    let esc : Option Char :=
      if e = '"' then some '"'
      else if e = '\\' then some '\\'
      else if e = '/' then some '/'
      else if e = 'n' then some '\n'
      else if e = 't' then some '\t'
      else if e = 'r' then some '\r'
      else if e = 'b' then some (Char.ofNat 8)
      else if e = 'f' then some (Char.ofNat 12)
      else none
    match esc with
    | some ch => (parseStr r).map (fun p => (ch :: p.1, p.2))
    | none => none
  | c :: r => (parseStr r).map (fun p => (c :: p.1, p.2))

/-- Digit run to a natural number. -/
def digitsToNat (ds : List Char) : Nat :=
  ds.foldl (fun a c => a * 10 + (c.toNat - 48)) 0

/-- Parse an unsigned integer literal. -/
def parseNatNum (l : List Char) : Option (Nat × List Char) :=
  let ds := l.takeWhile Char.isDigit
  if ds.isEmpty then none else some (digitsToNat ds, l.dropWhile Char.isDigit)

/-- Parse an integer JSON number (optional leading minus). -/
def parseNum (l : List Char) : Option (Int × List Char) :=
  match l with
  | '-' :: r => (parseNatNum r).map (fun p => (-(p.1 : Int), p.2))
  | _ => (parseNatNum l).map (fun p => ((p.1 : Int), p.2))

mutual

/-- Parse one JSON value; the fuel decreases at each nesting level. -/
def parseVal : Nat → List Char → Option (Json × List Char)
  | 0, _ => none
  | f + 1, l =>
    match skipWs l with
    | [] => none
    | c :: r =>
      if c = '"' then (parseStr r).map (fun p => (Json.jstr p.1, p.2))
      else if c = '[' then
        match skipWs r with
        | ']' :: r2 => some (Json.jarr [], r2)
        | _ =>
          match parseArrItems f r with
          | some (xs, r2) => some (Json.jarr xs, r2)
          | none => none
      else if c = lbrace then
        match skipWs r with
        | c2 :: r2 =>
          if c2 = rbrace then some (Json.jobj [], r2)
          else
            match parseObjItems f (c2 :: r2) with
            | some (kvs, r3) => some (Json.jobj kvs, r3)
            | none => none
        | [] => none
      else if c = 'n' then
        match r with
        | 'u' :: 'l' :: 'l' :: r2 => some (Json.jnull, r2)
        | _ => none
      else if c = 't' then
        match r with
        | 'r' :: 'u' :: 'e' :: r2 => some (Json.jbool true, r2)
        | _ => none
      else if c = 'f' then
        match r with
        | 'a' :: 'l' :: 's' :: 'e' :: r2 => some (Json.jbool false, r2)
        | _ => none
      else (parseNum (c :: r)).map (fun p => (Json.jnum p.1, p.2))

/-- Parse one or more comma-separated array items up to `]`. -/
def parseArrItems : Nat → List Char → Option (List Json × List Char)
  | 0, _ => none
  | f + 1, l =>
    match parseVal f l with
    | none => none
    | some (v, r) =>
      match skipWs r with
      | ',' :: r2 => (parseArrItems f r2).map (fun p => (v :: p.1, p.2))
      | ']' :: r2 => some ([v], r2)
      | _ => none

/-- Parse one or more comma-separated `"key": value` members up to the
closing brace. -/
def parseObjItems : Nat → List Char → Option (List (List Char × Json) × List Char)
  | 0, _ => none
  | f + 1, l =>
    match skipWs l with
    | '"' :: r =>
      match parseStr r with
      | none => none
      | some (k, r2) =>
        match skipWs r2 with
        | ':' :: r3 =>
          match parseVal f r3 with
          | none => none
          | some (v, r4) =>
            match skipWs r4 with
            | ',' :: r5 => (parseObjItems f r5).map (fun p => ((k, v) :: p.1, p.2))
            | c :: r5 => if c = rbrace then some ([(k, v)], r5) else none
            | [] => none
        | _ => none
    | _ => none

end

/-- Model of `json.loads`: parse one value and require only whitespace after it. -/
def jsonLoads (l : List Char) : Option Json :=
  match parseVal (2 * l.length + 2) l with
  | some (v, r) => if (skipWs r).isEmpty then some v else none
  | none => none

/-- Python `dict.get` on a parsed object (duplicate keys: last one wins,
as in `json.loads`). -/
def objGet (kvs : List (List Char × Json)) (k : List Char) : Option Json :=
  (kvs.reverse.find? (fun kv => kv.1 = k)).map (fun kv => kv.2)

/-! ## The OpenAI-compatible streaming decoder

`call_model_stream`, lines 147–171: bytes arrive in chunks; each chunk is
decoded with `errors='replace'` and appended to a text buffer; complete
events (separated by `"\n\n"`) are split off; within an event, every line
starting with `"data: "` is stripped and either terminates the stream
(`"[DONE]"`) or contributes `choices[0].delta.content` to one fragment
yielded per event. -/

/-- Extraction of the incremental content from one decoded `data:` payload:
`json.loads`, then `data.get("choices")` (truthy: non-empty list), then
`choices[0].get("delta", ...)` (truthy: non-empty dict), then
`delta.get("content")` (truthy: non-empty string).  `none` means the line
contributes nothing (parse failure is logged and skipped by the code). -/
def extractContent (payload : List Char) : Option (List Char) :=
  match jsonLoads payload with
  | some (Json.jobj kvs) =>
    match objGet kvs "choices".data with
    | some (Json.jarr (c0 :: _)) =>
      match c0 with
      | Json.jobj ckvs =>
        match objGet ckvs "delta".data with
        | some (Json.jobj dkvs) =>
          if dkvs.isEmpty then none
          else
            match objGet dkvs "content".data with
            | some (Json.jstr s) => if s.isEmpty then none else some s
            | _ => none
        | _ => none
      | _ => none
    | _ => none
  | _ => none

/-- The `"data: "` line marker. -/
def dataMarker : List Char := "data: ".data

/-- Process the lines of one event: concatenate the content of every
`data:` line; `none` signals that a `"[DONE]"` payload was reached, which
makes the generator return at once (content accumulated earlier in the same
event is discarded, later lines are not examined). -/
def processEventLines : List (List Char) → Option (List Char)
  | [] => some []
  | line :: rest =>
    if startsWithL dataMarker line then
      let payload := pyStripL (line.drop dataMarker.length)
      if payload = "[DONE]".data then none
      else
        match extractContent payload with
        | some c => (processEventLines rest).map (fun acc => c ++ acc)
        | none => processEventLines rest
    else processEventLines rest

/-- Fuelled splitting of a buffer into all complete events plus the
undecoded remainder (the fuel — the buffer length — is ample since every
event consumes at least the two delimiter characters). -/
def splitEventsF : Nat → List Char → List (List Char) × List Char
  | 0, b => ([], b)
  | f + 1, b =>
    match splitEvent b with
    | none => ([], b)
    | some (e, r) =>
      let p := splitEventsF f r
      (e :: p.1, p.2)

/-- All complete events of the buffer and the trailing remainder, exactly
the iteration of `while '\n\n' in buffer`. -/
def splitEvents (b : List Char) : List (List Char) × List Char :=
  splitEventsF b.length b

/-- Process a list of events in order: skip whitespace-only events, yield
one fragment per event with non-empty content, stop at `[DONE]` (second
component `true` means the generator returned). -/
def processEvents : List (List Char) → List (List Char) × Bool
  | [] => ([], false)
  | e :: es =>
    if (pyStripL e).isEmpty then processEvents es
    else
      match processEventLines (splitLines e) with
      | none => ([], true)
      | some c =>
        let p := processEvents es
        (if c.isEmpty then p.1 else c :: p.1, p.2)

/-- One pass of the inner `while` loop over the whole buffer: the emitted
fragments, the termination flag, and the remaining (incomplete) buffer.
(When the flag is `true` the generator has returned and the remaining
buffer is never read again.) -/
def processBuffer (b : List Char) : List (List Char) × Bool × List Char :=
  let s := splitEvents b
  let p := processEvents s.1
  (p.1, p.2, s.2)

/-- Decoder state across chunks: the text buffer, the fragments yielded so
far, and whether the generator has returned. -/
structure DecSt where
  buffer : List Char
  fragments : List (List Char)
  terminated : Bool
deriving DecidableEq

/-- Feed one decoded chunk of text to the decoder (the body of
`for chunk in response.iter_content(...)` after the `decode`). -/
def feedChars (st : DecSt) (chunkText : List Char) : DecSt :=
  if st.terminated then st
  else
    let r := processBuffer (st.buffer ++ chunkText)
    ⟨r.2.2, st.fragments ++ r.1, r.2.1⟩

/-- Run the decoder over a list of byte chunks, decoding each chunk
separately with `errors='replace'` exactly as the code does. -/
def runBytes (chunks : List (List Nat)) : DecSt :=
  chunks.foldl (fun st ch => feedChars st (utf8DecodeReplace ch)) ⟨[], [], false⟩

/-- The sequence of text fragments the gateway yields for a chunked byte
stream (OpenAI-compatible family). -/
def openaiFragments (chunks : List (List Nat)) : List (List Char) :=
  (runBytes chunks).fragments

/-! ### Structural lemmas about the decoder -/

lemma splitEvent_nil : splitEvent [] = none := rfl

lemma splitEvent_length : ∀ {b e r : List Char}, splitEvent b = some (e, r) → r.length + 2 ≤ b.length := by
  intro b
  induction b with
  | nil => intro e r h; simp [splitEvent] at h
  | cons c rest ih =>
    intro e r h
    by_cases hc : c = '\n' ∧ rest.head? = some '\n'
    · rw [splitEvent, if_pos hc] at h
      obtain ⟨hc1, hc2⟩ := hc
      cases rest with
      | nil => simp at hc2
      | cons d rest2 =>
        simp only [List.tail_cons] at h
        obtain ⟨he, hr⟩ := Prod.mk.injEq .. ▸ (Option.some.inj h)
        subst hr
        simp
    · rw [splitEvent, if_neg hc] at h
      cases h2 : splitEvent rest with
      | none => rw [h2] at h; simp at h
      | some p =>
        obtain ⟨e', r'⟩ := p
        rw [h2, Option.map_some'] at h
        obtain ⟨he, hr⟩ := Prod.mk.injEq .. ▸ (Option.some.inj h)
        subst hr
        have := ih h2
        simp only [List.length_cons]
        omega

lemma splitEvent_append {b e r : List Char} (v : List Char)
    (h : splitEvent b = some (e, r)) : splitEvent (b ++ v) = some (e, r ++ v) := by
  induction b generalizing e r with
  | nil => simp [splitEvent] at h
  | cons c rest ih =>
    by_cases hc : c = '\n' ∧ rest.head? = some '\n'
    · rw [splitEvent, if_pos hc] at h
      obtain ⟨hc1, hc2⟩ := hc
      cases rest with
      | nil => simp at hc2
      | cons d rest2 =>
        simp only [List.head?_cons, Option.some.injEq] at hc2
        subst hc1; subst hc2
        simp only [List.tail_cons] at h
        obtain ⟨he, hr⟩ := Prod.mk.injEq .. ▸ (Option.some.inj h)
        subst he; subst hr
        simp [splitEvent]
    · rw [splitEvent, if_neg hc] at h
      cases h2 : splitEvent rest with
      | none => rw [h2] at h; simp at h
      | some p =>
        obtain ⟨e', r'⟩ := p
        rw [h2, Option.map_some'] at h
        obtain ⟨he, hr⟩ := Prod.mk.injEq .. ▸ (Option.some.inj h)
        subst he; subst hr
        have hne : rest ≠ [] := by
          intro hn; rw [hn] at h2; simp [splitEvent] at h2
        have hcc : ¬(c = '\n' ∧ (rest ++ v).head? = some '\n') := by
          intro hcv
          apply hc
          refine ⟨hcv.1, ?_⟩
          cases rest with
          | nil => exact absurd rfl hne
          | cons d rest2 => simpa using hcv.2
        rw [List.cons_append, splitEvent, if_neg hcc, ih h2, Option.map_some']

lemma splitEventsF_congr : ∀ (f g : Nat) (b : List Char), b.length ≤ f → b.length ≤ g →
    splitEventsF f b = splitEventsF g b := by
  intro f
  induction f with
  | zero =>
    intro g b hf hg
    have hb : b = [] := List.length_eq_zero.mp (Nat.le_zero.mp hf)
    subst hb
    cases g with
    | zero => rfl
    | succ g => simp [splitEventsF, splitEvent]
  | succ f ih =>
    intro g b hf hg
    cases g with
    | zero =>
      have hb : b = [] := List.length_eq_zero.mp (Nat.le_zero.mp hg)
      subst hb
      simp [splitEventsF, splitEvent]
    | succ g =>
      simp only [splitEventsF]
      cases h : splitEvent b with
      | none => rfl
      | some p =>
        obtain ⟨e, r⟩ := p
        have hl := splitEvent_length h
        have := ih g r (by omega) (by omega)
        simp [this]

lemma splitEvents_eq_none {b : List Char} (h : splitEvent b = none) :
    splitEvents b = ([], b) := by
  unfold splitEvents
  cases hl : b.length with
  | zero => rfl
  | succ n => simp [splitEventsF, h]

lemma splitEvents_eq_some {b e r : List Char} (h : splitEvent b = some (e, r)) :
    splitEvents b = (e :: (splitEvents r).1, (splitEvents r).2) := by
  have hl := splitEvent_length h
  unfold splitEvents
  cases hb : b.length with
  | zero => omega
  | succ n =>
    simp only [splitEventsF, h]
    have : splitEventsF n r = splitEventsF r.length r :=
      splitEventsF_congr n r.length r (by omega) (le_refl _)
    simp [this]

lemma splitEvents_append (b v : List Char) :
    splitEvents (b ++ v) =
      ((splitEvents b).1 ++ (splitEvents ((splitEvents b).2 ++ v)).1,
       (splitEvents ((splitEvents b).2 ++ v)).2) := by
  cases h : splitEvent b with
  | none => simp [splitEvents_eq_none h]
  | some p =>
    obtain ⟨e, r⟩ := p
    have ih := splitEvents_append r v
    rw [splitEvents_eq_some (splitEvent_append v h), splitEvents_eq_some h, ih]
    simp
termination_by b.length
decreasing_by
  have := splitEvent_length h
  omega

lemma processEvents_append (es1 es2 : List (List Char)) :
    processEvents (es1 ++ es2) =
      (let p := processEvents es1
       if p.2 then p else (p.1 ++ (processEvents es2).1, (processEvents es2).2)) := by
  induction es1 with
  | nil => simp [processEvents]
  | cons e es ih =>
    by_cases hs : (pyStripL e).isEmpty
    · simpa [processEvents, hs] using ih
    · cases hl : processEventLines (splitLines e) with
      | none => simp [processEvents, hs, hl]
      | some c =>
        by_cases hp : (processEvents es).2 <;>
          by_cases hc : c.isEmpty <;>
            simp [processEvents, hs, hl, hp, hc, ih]

lemma feedChars_split (st : DecSt) (u v : List Char) :
    (feedChars st (u ++ v)).fragments = (feedChars (feedChars st u) v).fragments ∧
    (feedChars st (u ++ v)).terminated = (feedChars (feedChars st u) v).terminated := by
  by_cases ht : st.terminated
  · simp [feedChars, ht]
  · have hb : st.buffer ++ (u ++ v) = (st.buffer ++ u) ++ v := by simp
    simp only [feedChars, ht, if_false]
    simp only [processBuffer, hb, splitEvents_append (st.buffer ++ u) v,
      processEvents_append]
    by_cases hp : (processEvents (splitEvents (st.buffer ++ u)).1).2
    · simp [feedChars, hp]
    · simp [feedChars, hp]

lemma feedChars_of_terminated {st : DecSt} (h : st.terminated = true) (ch : List Char) :
    feedChars st ch = st := by
  simp [feedChars, h]

lemma runBytes_append_of_terminated {chunks : List (List Nat)}
    (h : (runBytes chunks).terminated = true) (extra : List (List Nat)) :
    runBytes (chunks ++ extra) = runBytes chunks := by
  unfold runBytes
  rw [List.foldl_append]
  generalize hst : List.foldl _ _ chunks = st at *
  have : (runBytes chunks) = st := by unfold runBytes; rw [hst]
  rw [this] at h
  clear hst this
  induction extra with
  | nil => rfl
  | cons c cs ih =>
    simp only [List.foldl_cons, feedChars_of_terminated h]
    exact ih

/-- Helper for building byte streams out of ASCII text. -/
def strBytes (s : String) : List Nat := s.data.map Char.toNat

/-- The ASCII head of the counterexample stream: one `data:` line carrying
a JSON payload whose `content` field is about to hold a two-byte UTF-8
character. -/
def cexHead : List Nat := strBytes "data: \x7b\"choices\":[\x7b\"delta\":\x7b\"content\":\""

/-- The ASCII tail of the counterexample stream (closing quote and braces,
then the blank-line event delimiter). -/
def cexTail : List Nat := strBytes "\"\x7d\x7d]\x7d\n\n"

/-- A complete synthetic OpenAI-compatible event whose content is the
two-byte UTF-8 character U+00E9. -/
def cexStream : List Nat := cexHead ++ [0xC3, 0xA9] ++ cexTail

/-- A split offset falling between the two bytes of that character. -/
def cexK : Nat := cexHead.length + 1

/-- Claim C1 (counterexample): splitting the synthetic stream `cexStream`
into two chunks at byte offset `cexK` — in the middle of a two-byte UTF-8
character inside the content field — yields a different fragment sequence
than delivering the stream whole: each half-character is decoded to U+FFFD
by the per-chunk `errors='replace'` decode, so the fragment is corrupted.
This refutes the claim at an arbitrary byte offset. -/
theorem c1_byte_split_counterexample :
    openaiFragments [cexStream.take cexK, cexStream.drop cexK] ≠ openaiFragments [cexStream] := by
  decide

/-- Claim C1 (amended): for the OpenAI-compatible family, feeding one
synthetic byte stream split into two chunks yields exactly the fragment
sequence of the unsplit stream, for every split offset at which per-chunk
UTF-8 decoding agrees with whole-stream decoding — in particular every
offset that does not fall inside a multi-byte UTF-8 character.  No partial
line or event at the chunk boundary is lost: undecoded trailing text is
buffered across chunks. -/
theorem c1_boundary_independence_amended (s : List Nat) (k : Nat)
    (h : utf8DecodeReplace (s.take k) ++ utf8DecodeReplace (s.drop k) = utf8DecodeReplace s) :
    openaiFragments [s.take k, s.drop k] = openaiFragments [s] := by
  have h2 := feedChars_split ⟨[], [], false⟩ (utf8DecodeReplace (s.take k))
    (utf8DecodeReplace (s.drop k))
  unfold openaiFragments runBytes
  simp only [List.foldl_cons, List.foldl_nil]
  rw [← h]
  exact h2.1.symm

/-- Claim C1 witness: a concrete ASCII stream split at byte offset 5
satisfies the decode-agreement hypothesis and yields identical fragments. -/
theorem c1_boundary_independence_witness :
    (utf8DecodeReplace (cexStream.take 5) ++ utf8DecodeReplace (cexStream.drop 5) =
       utf8DecodeReplace cexStream) ∧
    openaiFragments [cexStream.take 5, cexStream.drop 5] = openaiFragments [cexStream] :=
  ⟨by decide, c1_boundary_independence_amended cexStream 5 (by decide)⟩

/-- Claim C8: a `data:` line whose stripped payload is the literal `[DONE]`
token ends fragment emission immediately.  First conjunct: once a chunked
run has terminated, appending any further chunks changes nothing.  Second
conjunct: even bytes already buffered after the token within the same
buffer are never emitted — appending arbitrary text `q` after a buffer `x`
whose processing terminates leaves the emitted fragments unchanged and the
stream terminated. -/
theorem c8_done_terminates (chunks extra : List (List Nat)) (x q : List Char)
    (h1 : (runBytes chunks).terminated = true)
    (h2 : (processBuffer x).2.1 = true) :
    openaiFragments (chunks ++ extra) = openaiFragments chunks ∧
    (processBuffer (x ++ q)).1 = (processBuffer x).1 ∧
    (processBuffer (x ++ q)).2.1 = true := by
  refine ⟨?_, ?_, ?_⟩
  · unfold openaiFragments
    rw [runBytes_append_of_terminated h1]
  all_goals
    simp only [processBuffer] at h2 ⊢
    rw [splitEvents_append x q, processEvents_append]
    simp [h2]

/-- Claim C8 witness: a concrete stream containing a fragment, then
`data: [DONE]`, then a further data line; the decoder terminates, later
chunks and buffered text change nothing. -/
theorem c8_done_terminates_witness :
    (runBytes [strBytes "data: [DONE]\n\n"]).terminated = true ∧
    (processBuffer ("data: [DONE]\n\n".data)).2.1 = true ∧
    openaiFragments
        [strBytes "data: [DONE]\n\n",
         strBytes "data: \x7b\"choices\":[\x7b\"delta\":\x7b\"content\":\"x\"\x7d\x7d]\x7d\n\n"] =
      openaiFragments [strBytes "data: [DONE]\n\n"] ∧
    (processBuffer ("data: [DONE]\n\n".data ++ "data: zz\n\n".data)).1 =
      (processBuffer ("data: [DONE]\n\n".data)).1 := by
  have h := c8_done_terminates [strBytes "data: [DONE]\n\n"]
    [strBytes "data: \x7b\"choices\":[\x7b\"delta\":\x7b\"content\":\"x\"\x7d\x7d]\x7d\n\n"]
    ("data: [DONE]\n\n".data) ("data: zz\n\n".data) (by decide) (by decide)
  exact ⟨by decide, by decide, h.1, h.2.1⟩

/-! ## Gateway preflight: credential, endpoint and model resolution

`call_model_stream` (`src/core/model_logic.py`, lines 106–126) resolves the
API key via `_get_api_key`, looks up the base URL in `API_URLS`, and the
model identifier in `MODELS_BY_PROVIDER`, then yields a terminal error for
the first of the three that is missing — in the order: key, URL, model.
The process environment is an explicit parameter `env`. -/

/-- Python `str.strip()` on `String`. -/
def pyStrip (s : String) : String := String.mk (pyStripL s.data)

/-- Python `str.upper()` (ASCII, as used on provider names). -/
def pyUpper (s : String) : String := String.mk (s.data.map Char.toUpper)

/-- Python `str.lower()` (ASCII, as used on provider names). -/
def pyLower (s : String) : String := String.mk (s.data.map Char.toLower)

/-- Lookup in a string-keyed association list (`dict.get`). -/
def lookupStr {α : Type} (l : List (String × α)) (k : String) : Option α :=
  (l.find? (fun kv => kv.1 = k)).map (fun kv => kv.2)

/-- The table `API_KEYS_ENV_VARS`. -/
def api_keys_env_vars : List (String × String) :=
  [("HUGGINGFACE", "HF_TOKEN"), ("GROQ", "GROQ_API_KEY"),
   ("OPENROUTER", "OPENROUTER_API_KEY"), ("TOGETHERAI", "TOGETHERAI_API_KEY"),
   ("COHERE", "COHERE_API_KEY"), ("XAI", "XAI_API_KEY"),
   ("OPENAI", "OPENAI_API_KEY"), ("GOOGLE", "GOOGLE_API_KEY")]

/-- The table `API_URLS`. -/
def api_urls : List (String × String) :=
  [("HUGGINGFACE", "https://api-inference.huggingface.co/models/"),
   ("GROQ", "https://api.groq.com/openai/v1/chat/completions"),
   ("OPENROUTER", "https://openrouter.ai/api/v1/chat/completions"),
   ("TOGETHERAI", "https://api.together.ai/v1/chat/completions"),
   ("COHERE", "https://api.cohere.ai/v1/chat"),
   ("XAI", "https://api.x.ai/v1/chat/completions"),
   ("OPENAI", "https://api.openai.com/v1/chat/completions"),
   ("GOOGLE", "https://generativelanguage.googleapis.com/v1beta/models/")]

/-- The catalog `MODELS_BY_PROVIDER`: provider → (default model id, display name → id). -/
def models_by_provider : List (String × (String × List (String × String))) :=
  [("groq", ("llama3-8b-8192", [("Llama 3 8B (Groq)", "llama3-8b-8192")]))]

/-- Model of `get_model_id_from_display_name`. -/
def get_model_id_from_display_name (provider display_name : String) : Option String :=
  match lookupStr models_by_provider (pyLower provider) with
  | some p => lookupStr p.2 display_name
  | none => none

/-- The environment-variable part of `_get_api_key` (after the override
check), on the upper-cased provider name: the provider's variable from
`API_KEYS_ENV_VARS` (if set and non-blank), else, for HuggingFace only,
the generic `HF_TOKEN` fallback. -/
def get_api_key_env (env : String → Option String) (provider_upper : String) :
    Option String :=
  let fromVar : Option String :=
    match lookupStr api_keys_env_vars provider_upper with
    | some env_var_name =>
      match env env_var_name with
      | some env_key => if pyStrip env_key ≠ "" then some (pyStrip env_key) else none
      | none => none
    | none => none
  match fromVar with
  | some k => some k
  | none =>
    if provider_upper = "HUGGINGFACE" then
      match env "HF_TOKEN" with
      | some t => if pyStrip t ≠ "" then some (pyStrip t) else none
      | none => none
    else none

/-- Model of `_get_api_key`: a non-blank UI override wins; else the
environment-variable resolution. -/
def get_api_key (env : String → Option String) (provider : String)
    (ui_api_key_override : Option String) : Option String :=
  let provider_upper := pyUpper provider
  match ui_api_key_override with
  | some o =>
    if o ≠ "" ∧ pyStrip o ≠ "" then some (pyStrip o)
    else get_api_key_env env provider_upper
  | none => get_api_key_env env provider_upper

/-- The three terminal preflight error kinds of `call_model_stream`
(lines 117–126): in the source they are the yielded strings
`"Error: API Key not found for ..."`, `"Error: Unknown provider ..."`,
and `"Error: Model ID not found for ..."`. -/
inductive PreflightErr where
  | missingCredential
  | unknownProvider
  | unknownModel
deriving DecidableEq

/-- The preflight checks of `call_model_stream`, in source order:
`if not api_key`, then `if not base_url`, then `if not model_id`;
`none` means the call proceeds to the provider dispatch. -/
def preflight (env : String → Option String) (provider model_display_name : String)
    (api_key_override : Option String) : Option PreflightErr :=
  let api_key := get_api_key env (pyLower provider) api_key_override
  let base_url := lookupStr api_urls (pyUpper provider)
  let model_id := get_model_id_from_display_name (pyLower provider) model_display_name
  if api_key = none then some .missingCredential
  else if base_url = none then some .unknownProvider
  else if model_id = none then some .unknownModel
  else none

/-- An environment with no variables set. -/
def envEmpty : String → Option String := fun _ => none

/-- Claim C2 (counterexample): a call whose credential resolves (via a UI
override) and whose model display name is unregistered, with an
unregistered provider endpoint, terminates with the UnknownProvider error,
not the UnknownModel error: the code checks the endpoint before the model
identifier. -/
theorem c2_error_order_counterexample :
    get_api_key envEmpty "nosuchprovider" (some "k") = some "k" ∧
    get_model_id_from_display_name "nosuchprovider" "Some Model" = none ∧
    preflight envEmpty "nosuchprovider" "Some Model" (some "k") = some .unknownProvider ∧
    some PreflightErr.unknownProvider ≠ some PreflightErr.unknownModel := by
  refine ⟨by decide, by decide, by decide, by decide⟩

/-- Claim C2 (amended): in `call_model_stream` credential resolution comes
first (terminal MissingCredential when no override and no environment key),
then endpoint resolution (terminal UnknownProvider), then model-identifier
resolution (terminal UnknownModel); hence for every call whose credential
resolves and whose provider endpoint is registered, an unregistered model
display name terminates the stream with the UnknownModel error. -/
theorem c2_error_order_amended (env : String → Option String)
    (provider model_display_name : String) (override : Option String)
    (h1 : (get_api_key env (pyLower provider) override).isSome)
    (h2 : (lookupStr api_urls (pyUpper provider)).isSome)
    (h3 : get_model_id_from_display_name (pyLower provider) model_display_name = none) :
    preflight env provider model_display_name override = some .unknownModel := by
  unfold preflight
  rw [if_neg (by simp [Option.isSome_iff_ne_none] at h1; exact h1),
    if_neg (by simp [Option.isSome_iff_ne_none] at h2; exact h2), if_pos h3]

/-- Claim C2 witness: provider `openai` has a registered endpoint but no
registered models; with an override credential and an unknown display name
the preflight yields UnknownModel. -/
theorem c2_error_order_witness :
    (get_api_key envEmpty (pyLower "openai") (some "k")).isSome = true ∧
    (lookupStr api_urls (pyUpper "openai")).isSome = true ∧
    get_model_id_from_display_name (pyLower "openai") "GPT-4" = none ∧
    preflight envEmpty "openai" "GPT-4" (some "k") = some .unknownModel := by
  refine ⟨by decide, by decide, by decide, ?_⟩
  exact c2_error_order_amended envEmpty "openai" "GPT-4" (some "k")
    (by decide) (by decide) (by decide)

/-! ## The semantic index (`src/core/explorer.py`)

`SemanticExplorer` owns a chromadb collection.  We model the collection as
an association list from ids (canonical paths) to stored items; `upsert`
replaces the item for an existing id and appends new ids; `count` is the
number of stored ids.  The filesystem (`os.walk`, `os.stat`,
`os.path.isdir`) and the file-snippet reader are explicit oracles; the
scanned path list `all_paths` is the input of the batch phase. -/

/-- The result of `os.stat` plus `os.path.isdir` for one path. -/
structure StatInfo where
  size : Nat
  mtime : Nat
  isDir : Bool
deriving DecidableEq

/-- The metadata dictionary stored with each indexed item
(`explorer.py`, lines 73–76).  `size_bytes` is an `Option` so that the
claimed "absent/null for directories" is expressible; the code always
stores `some (stat.st_size)`. -/
structure Meta where
  full_path : String
  relative_path : String
  is_dir : Bool
  size_bytes : Option Nat
  modified_time : Nat
deriving DecidableEq

/-- One stored item: the document text and the metadata. -/
structure Item where
  doc : String
  meta : Meta
deriving DecidableEq

/-- The chromadb collection: an association list id → item, ids distinct
whenever the initial store has distinct ids. -/
abbrev Store := List (String × Item)

/-- Model of `collection.count()`. -/
def storeCount (s : Store) : Nat := s.length

/-- Upsert of a single id: replace the binding of an existing id (ids are
unique in every store the model builds), append a new id. -/
def upsertOne : Store → String → Item → Store
  | [], id, it => [(id, it)]
  | kv :: rest, id, it =>
    if kv.1 = id then (id, it) :: rest else kv :: upsertOne rest id it

/-- Model of `collection.upsert(documents, metadatas, ids)` for one batch. -/
def upsertBatch (s : Store) (items : List (String × Item)) : Store :=
  items.foldl (fun acc x => upsertOne acc x.1 x.2) s

/-- Does the store hold an item under `id`? -/
def hasKey (s : Store) (id : String) : Bool := s.any (fun kv => kv.1 = id)

/-- Retrieval by id. -/
def storeLookup (s : Store) (id : String) : Option Item :=
  (s.find? (fun kv => kv.1 = id)).map (fun kv => kv.2)

/-- Model of `os.path.relpath(p, root)` for a path lying under `root` with POSIX
separators (the only case arising from `os.walk(root)`). -/
def relPathOf (root p : String) : String :=
  if (root ++ "/").isPrefixOf p then String.mk (p.data.drop (root.length + 1)) else p

/-- Model of `Path(relative_path).parts` for a POSIX relative path. -/
def pathParts (rel : String) : List String :=
  (rel.splitOn "/").filter (fun x => x ≠ "")

/-- Replace every `/` by a space (`relative_path.replace(os.sep, ' ')`). -/
def sepToSpace (rel : String) : String :=
  String.mk (rel.data.map (fun c => if c = '/' then ' ' else c))

/-- The document text built for one entry (`explorer.py`, lines 70–71). -/
def docOf (rel : String) (isDir : Bool) (snippet : String) : String :=
  "Type: " ++ (if isDir then "Folder" else "File") ++ ". Path: " ++ sepToSpace rel ++
    ". Tree: " ++ String.intercalate " > " (pathParts rel) ++ ". " ++
    (if isDir then "" else "Content Snippet: " ++ snippet)

/-- Processing of one scanned path inside a batch (`explorer.py`,
lines 65–79): stat the path (`none` models the `FileNotFoundError` skip),
build the document text and the metadata dictionary; the id is the path
itself.  `size_bytes` is always `some st.size`, for directories too. -/
def processPath (stat : String → Option StatInfo) (snip : String → String)
    (root p : String) : Option (String × Item) :=
  match stat p with
  | none => none
  | some st =>
    let rel := relPathOf root p
    some (p, ⟨docOf rel st.isDir (snip p),
      ⟨p, rel, st.isDir, some st.size, st.mtime⟩⟩)

/-- Fuelled worker for `chunkList`. -/
def chunkListF {α : Type} : Nat → Nat → List α → List (List α)
  | 0, _, _ => []
  | _, _, [] => []
  | f + 1, n, l => l.take n :: chunkListF f n (l.drop n)

/-- Model of the `range(0, total, batch_size)` chunking of the path list (the fuel —
the list length — is ample for any positive chunk size; the code always
uses `batch_size = 128`). -/
def chunkList {α : Type} (n : Nat) (l : List α) : List (List α) :=
  chunkListF l.length n l

/-- The progress statuses yielded by `index_directory`; the `cancelled` and
`complete` statuses carry the store size they report
(`"Build cancelled. The database now contains \x7bn\x7d items."` /
`"Index build complete. ..."`). -/
inductive Status where
  | invalidDir
  | scanning
  | scanComplete (total : Nat)
  | processingBatch (num processedShown total : Nat)
  | cancelled (dbSize : Nat)
  | complete (dbSize : Nat)
deriving DecidableEq

/-- The batch loop of `index_directory` (lines 56–81).  `cancel i` is the
value of the cooperative `is_cancelled` flag observed at the check opening
iteration `i` (`if self.is_cancelled: break`); the loop stops at the first
batch whose check observes the flag set.  Returns the final store, the
yielded batch statuses, and whether the loop was cancelled. -/
def buildLoop (stat : String → Option StatInfo) (snip : String → String)
    (root : String) (cancel : Nat → Bool) (total : Nat) :
    Store → List (List String) → Nat → Store × List Status × Bool
  | store, [], _ => (store, [], false)
  | store, b :: bs, i =>
    if cancel i then (store, [], true)
    else
      let items := b.filterMap (processPath stat snip root)
      let store2 := if items.isEmpty then store else upsertBatch store items
      let rec_ := buildLoop stat snip root cancel total store2 bs (i + 1)
      (rec_.1, Status.processingBatch (i + 1) (min ((i + 1) * 128) total) total :: rec_.2.1,
        rec_.2.2)

/-- Model of `index_directory` from the point where the scan finished: validate the
root (`rootIsDir` models `os.path.isdir(root_path)`), honour a cancellation
observed during/after the scan (`scanCancelled`), then run the 128-item
batch loop and yield the final status carrying `collection.count()`. -/
def runBuild (stat : String → Option StatInfo) (snip : String → String)
    (root : String) (rootIsDir : Bool) (allPaths : List String)
    (scanCancelled : Bool) (cancel : Nat → Bool) (store : Store) :
    Store × List Status :=
  if !rootIsDir then (store, [.invalidDir])
  else if scanCancelled then (store, [.scanning, .cancelled (storeCount store)])
  else
    let total := allPaths.length
    let r := buildLoop stat snip root cancel total store (chunkList 128 allPaths) 0
    let fin := if r.2.2 then Status.cancelled (storeCount r.1) else Status.complete (storeCount r.1)
    (r.1, [.scanning, .scanComplete total] ++ r.2.1 ++ [fin])

/-- The store produced by applying a list of batches without cancellation
(the per-batch body of lines 63–81). -/
def applyBatches (stat : String → Option StatInfo) (snip : String → String)
    (root : String) (store : Store) (batches : List (List String)) : Store :=
  batches.foldl
    (fun s b =>
      let items := b.filterMap (processPath stat snip root)
      if items.isEmpty then s else upsertBatch s items)
    store

/-! ### Search (`explorer.py`, lines 90–144)

The filter grammar the orchestrator produces (see the tool spec in
`chat_agent.py`): a leaf is one of `relative_path: $contains`,
`size_bytes: $gt`, `size_bytes: $lt`, or bare `is_dir` equality; the only
combinator is a single-level `"$and"` list.  A top-level dict holding one
leaf is the `leafF` form; multi-key top-level dicts are outside the
grammar (spec §9 records their behaviour as implementation-defined).
The chromadb query itself is an external collaborator: `search` is modelled
from the returned candidate list (metadata plus cosine distance, in the
store's similarity-descending order), with the guarantee that the store
returns at most the requested `min(n_results * 5, count)` neighbours. -/

/-- One filter leaf. -/
inductive Cond where
  | relContains (s : String)
  | sizeGt (n : Int)
  | sizeLt (n : Int)
  | isDirEq (b : Bool)
deriving DecidableEq

/-- Does the leaf match `'relative_path' in cond and '$contains' in
cond['relative_path']`? -/
def Cond.isRelContains : Cond → Bool
  | .relContains _ => true
  | _ => false

/-- The `$contains` value carried by a leaf, if any. -/
def Cond.containsVal : Cond → Option String
  | .relContains s => some s
  | _ => none

/-- The `metadata_filters` argument of `search`. -/
inductive Filters where
  | noF
  | andF (conds : List Cond)
  | leafF (c : Cond)
deriving DecidableEq

/-- Model of `extract_path_filter` (lines 96–104): walk the `$and` list, remember
the substring of every `relative_path.$contains` leaf (a later leaf
overwrites an earlier one) and keep the other leaves, in order. -/
def extractPathFilter (conds : List Cond) : List Cond × Option String :=
  conds.foldl
    (fun acc c =>
      match c with
      | .relContains s => (acc.1, some s)
      | c => (acc.1 ++ [c], acc.2))
    (([], none) : List Cond × Option String)

/-- The filter split of `search` (lines 93–112): the native `where`
filter handed to the store (`none` when `db_filters` became empty) and
the in-process `path_contains_filter`. -/
def splitFilters : Filters → Option Filters × Option String
  | .noF => (none, none)
  | .andF conds =>
    let p := extractPathFilter conds
    (if p.1.isEmpty then none else some (.andF p.1), p.2)
  | .leafF c =>
    match c with
    | .relContains s => (none, some s)
    | c => (some (.leafF c), none)

/-- One nearest-neighbour candidate as returned by `collection.query`:
its stored metadata and its cosine distance. -/
structure Candidate where
  meta : Meta
  dist : ℚ
deriving DecidableEq

/-- One entry of the list `search` returns (lines 132–139).  `modified`
keeps the raw timestamp (`datetime.fromtimestamp` is presentation only). -/
structure SearchResult where
  similarity : ℚ
  path : String
  full_path : String
  type : String
  size : Option Nat
  modified : Nat
deriving DecidableEq

/-- The result dictionary built from one candidate: similarity is
`1 - dist`; directories report `size = None`. -/
def mkResult (c : Candidate) : SearchResult :=
  ⟨1 - c.dist, c.meta.relative_path, c.meta.full_path,
    if c.meta.is_dir then "📁 Folder" else "📄 File",
    if c.meta.is_dir then none else c.meta.size_bytes,
    c.meta.modified_time⟩

/-- The candidate loop of `search` (lines 126–143): skip candidates whose
relative path does not contain the (truthy) in-process substring, append
the rest in order, and break as soon as the output has reached
`n_results` entries.  `outLen` is `len(output)` so far.
`skipsCandidate` is the `continue` condition of line 129: a truthy
`path_contains_filter` whose substring is absent from the candidate's
relative path. -/
def skipsCandidate (pf : Option String) (rel : String) : Bool :=
  match pf with
  | some s => !(s == "") && !strContains rel s
  | none => false

/-- Worker for the candidate loop. -/
def searchLoop (pf : Option String) (nResults : Nat) :
    List Candidate → Nat → List SearchResult
  | [], _ => []
  | c :: cs, outLen =>
    if skipsCandidate pf c.meta.relative_path then
      searchLoop pf nResults cs outLen
    else
      if nResults ≤ outLen + 1 then [mkResult c]
      else mkResult c :: searchLoop pf nResults cs (outLen + 1)

/-- Model of `search` from the point where the store returned its candidates:
empty store short-circuits to `[]`; otherwise split the filter and run the
candidate loop with the in-process substring filter.  (`cands` is the
store's answer for the query embedding, the `where` filter
`(splitFilters filters).1` and `n_results = min(5 * nResults, count)` —
the store is the external collaborator.) -/
def search (storeCnt : Nat) (cands : List Candidate) (nResults : Nat)
    (filters : Filters) : List SearchResult :=
  if storeCnt = 0 then []
  else searchLoop (splitFilters filters).2 nResults cands 0

/-! ### Lemmas about the candidate loop, and claims C3, C5, C10 -/

lemma strContains_empty (h : String) : strContains h "" = true := by
  cases hd : h.data with
  | nil => simp [strContains, hd, containsSub]
  | cons c rest => simp [strContains, hd, containsSub, startsWithL]

lemma searchLoop_cons (pf : Option String) (n : Nat) (c : Candidate)
    (cs : List Candidate) (k : Nat) :
    searchLoop pf n (c :: cs) k =
      if skipsCandidate pf c.meta.relative_path then searchLoop pf n cs k
      else if n ≤ k + 1 then [mkResult c]
      else mkResult c :: searchLoop pf n cs (k + 1) := rfl

lemma searchLoop_length (pf : Option String) (n : Nat) :
    ∀ (cs : List Candidate) (k : Nat), k < n → (searchLoop pf n cs k).length ≤ n - k := by
  intro cs
  induction cs with
  | nil => intro k hk; simp [searchLoop]
  | cons c cs ih =>
    intro k hk
    rw [searchLoop_cons]
    by_cases hskip : skipsCandidate pf c.meta.relative_path
    · rw [if_pos hskip]
      exact ih k hk
    · rw [if_neg hskip]
      by_cases hfull : n ≤ k + 1
      · rw [if_pos hfull]
        simp only [List.length_singleton]
        omega
      · rw [if_neg hfull]
        have := ih (k + 1) (by omega)
        simp only [List.length_cons]
        omega

lemma searchLoop_sublist (pf : Option String) (n : Nat) :
    ∀ (cs : List Candidate) (k : Nat),
      List.Sublist (searchLoop pf n cs k) (cs.map mkResult) := by
  intro cs
  induction cs with
  | nil => intro k; simp [searchLoop]
  | cons c cs ih =>
    intro k
    rw [searchLoop_cons, List.map_cons]
    by_cases hskip : skipsCandidate pf c.meta.relative_path
    · rw [if_pos hskip]
      exact (ih k).cons (mkResult c)
    · rw [if_neg hskip]
      by_cases hfull : n ≤ k + 1
      · rw [if_pos hfull]
        exact (List.nil_sublist _).cons₂ (mkResult c)
      · rw [if_neg hfull]
        exact (ih (k + 1)).cons₂ (mkResult c)

lemma searchLoop_contains (s : String) (n : Nat) :
    ∀ (cs : List Candidate) (k : Nat) (r : SearchResult),
      r ∈ searchLoop (some s) n cs k → strContains r.path s = true := by
  intro cs
  induction cs with
  | nil => intro k r hr; simp [searchLoop] at hr
  | cons c cs ih =>
    intro k r hr
    rw [searchLoop_cons] at hr
    have hpass : skipsCandidate (some s) c.meta.relative_path = false →
        strContains c.meta.relative_path s = true := by
      intro hf
      by_cases hs : s = ""
      · subst hs; exact strContains_empty _
      · simpa [skipsCandidate, hs] using hf
    by_cases hskip : skipsCandidate (some s) c.meta.relative_path
    · rw [if_pos hskip] at hr
      exact ih k r hr
    · rw [if_neg hskip] at hr
      by_cases hfull : n ≤ k + 1
      · rw [if_pos hfull] at hr
        simp only [List.mem_singleton] at hr
        subst hr
        exact hpass (by simpa using hskip)
      · rw [if_neg hfull] at hr
        simp only [List.mem_cons] at hr
        rcases hr with hr | hr
        · subst hr
          exact hpass (by simpa using hskip)
        · exact ih (k + 1) r hr

/-- The concrete stat oracle used by the directory-size examples: one
directory `r/d` of on-disk size 4096. -/
def c3Stat : String → Option StatInfo :=
  fun p => if p = "r/d" then some ⟨4096, 7, true⟩ else none

/-- Claim C3 (counterexample): building over a tree consisting of one
directory stores `size_bytes = 4096` — the `st_size` of the directory —
in the indexed metadata; the stored attribute is not absent/null for
directories, refuting the claim about the index. -/
theorem c3_dir_size_counterexample :
    ((runBuild c3Stat (fun _ => "") "r" true ["r/d"] false (fun _ => false) []).1.map
        (fun kv => (kv.1, kv.2.meta.is_dir, kv.2.meta.size_bytes))) =
      [("r/d", true, some 4096)] ∧
    ¬(∀ kv ∈ (runBuild c3Stat (fun _ => "") "r" true ["r/d"] false (fun _ => false) []).1,
        kv.2.meta.is_dir = true → kv.2.meta.size_bytes = none) := by
  constructor
  · decide
  · decide

/-- Claim C3 (amended): every successfully stat-ed entry — directory or
file — is stored with the numeric `size_bytes = st_size`; the absent/null
size for directories appears only in search results, whose `size` field is
`None` exactly when the entry is a directory. -/
theorem c3_size_bytes_amended (stat : String → Option StatInfo)
    (snip : String → String) (root p : String) (st : StatInfo)
    (h : stat p = some st) :
    (processPath stat snip root p).map (fun x => x.2.meta.size_bytes) =
      some (some st.size) ∧
    ∀ c : Candidate, (mkResult c).size = if c.meta.is_dir then none else c.meta.size_bytes := by
  refine ⟨?_, fun c => rfl⟩
  simp [processPath, h]

/-- Claim C3 witness: the directory `r/d` is stored with numeric size 4096,
and its search-result `size` is `None`. -/
theorem c3_size_bytes_witness :
    (processPath c3Stat (fun _ => "") "r" "r/d").map (fun x => x.2.meta.size_bytes) =
      some (some 4096) ∧
    (mkResult ⟨⟨"r/d", "d", true, some 4096, 7⟩, 0⟩).size = none := by
  have h := c3_size_bytes_amended c3Stat (fun _ => "") "r" "r/d" ⟨4096, 7, true⟩ (by decide)
  refine ⟨h.1, ?_⟩
  have h2 := h.2 ⟨⟨"r/d", "d", true, some 4096, 7⟩, 0⟩
  simpa using h2

/-- Claim C5: for a search whose filter is only a `$contains` leaf on
`relative_path` (either bare or as the single member of an `$and`), and a
candidate list within the store's over-fetch bound `5 * n`, every returned
result's relative path contains the substring, the output preserves the
store's candidate order (it is a sublist of the candidates in order), has
length at most the requested count, and every result's similarity is
`1 - dist` for its candidate. -/
theorem c5_contains_filter_search (storeCnt : Nat) (cands : List Candidate)
    (n : Nat) (s : String) (filters : Filters)
    (hf : filters = .leafF (.relContains s) ∨ filters = .andF [.relContains s])
    (hlen : cands.length ≤ 5 * n) :
    (∀ r ∈ search storeCnt cands n filters, strContains r.path s = true) ∧
    List.Sublist (search storeCnt cands n filters) (cands.map mkResult) ∧
    (search storeCnt cands n filters).length ≤ n ∧
    (∀ r ∈ search storeCnt cands n filters,
      ∃ c ∈ cands, r = mkResult c ∧ r.similarity = 1 - c.dist) := by
  have hsplit : (splitFilters filters).2 = some s := by
    rcases hf with hf | hf <;> subst hf <;>
      simp [splitFilters, extractPathFilter, List.foldl]
  by_cases hc : storeCnt = 0
  · simp [search, hc]
  · have hloop : search storeCnt cands n filters = searchLoop (some s) n cands 0 := by
      simp [search, hc, hsplit]
    rw [hloop]
    have hsub := searchLoop_sublist (some s) n cands 0
    refine ⟨fun r hr => searchLoop_contains s n cands 0 r hr, hsub, ?_, ?_⟩
    · by_cases hn : 0 < n
      · have := searchLoop_length (some s) n cands 0 hn
        omega
      · have hn0 : n = 0 := by omega
        subst hn0
        have : cands = [] := by
          cases cands with
          | nil => rfl
          | cons a l => simp at hlen
        subst this
        simp [searchLoop]
    · intro r hr
      have hmem : r ∈ cands.map mkResult := hsub.subset hr
      obtain ⟨c, hcm, hc⟩ := List.mem_map.mp hmem
      exact ⟨c, hcm, hc.symm, by rw [← hc]; rfl⟩

/-- Claim C5 witness: store size 2, two candidates, requested count 1 and
filter `relative_path $contains ".py"`: the one returned result is the
`.py` candidate, order, bound and similarity as claimed. -/
theorem c5_contains_filter_witness :
    (∀ r ∈ search 2
        [⟨⟨"/t/a.md", "a.md", false, some 3, 0⟩, (1 : ℚ) / 4⟩,
         ⟨⟨"/t/b.py", "b.py", false, some 9, 0⟩, (1 : ℚ) / 2⟩] 1
        (.leafF (.relContains ".py")), strContains r.path ".py" = true) ∧
    List.Sublist
      (search 2
        [⟨⟨"/t/a.md", "a.md", false, some 3, 0⟩, (1 : ℚ) / 4⟩,
         ⟨⟨"/t/b.py", "b.py", false, some 9, 0⟩, (1 : ℚ) / 2⟩] 1
        (.leafF (.relContains ".py")))
      (([⟨⟨"/t/a.md", "a.md", false, some 3, 0⟩, (1 : ℚ) / 4⟩,
         ⟨⟨"/t/b.py", "b.py", false, some 9, 0⟩, (1 : ℚ) / 2⟩] :
          List Candidate).map mkResult) ∧
    (search 2
        [⟨⟨"/t/a.md", "a.md", false, some 3, 0⟩, (1 : ℚ) / 4⟩,
         ⟨⟨"/t/b.py", "b.py", false, some 9, 0⟩, (1 : ℚ) / 2⟩] 1
        (.leafF (.relContains ".py"))).length ≤ 1 ∧
    (∀ r ∈ search 2
        [⟨⟨"/t/a.md", "a.md", false, some 3, 0⟩, (1 : ℚ) / 4⟩,
         ⟨⟨"/t/b.py", "b.py", false, some 9, 0⟩, (1 : ℚ) / 2⟩] 1
        (.leafF (.relContains ".py")),
      ∃ c ∈ ([⟨⟨"/t/a.md", "a.md", false, some 3, 0⟩, (1 : ℚ) / 4⟩,
              ⟨⟨"/t/b.py", "b.py", false, some 9, 0⟩, (1 : ℚ) / 2⟩] : List Candidate),
        r = mkResult c ∧ r.similarity = 1 - c.dist) :=
  c5_contains_filter_search 2
    [⟨⟨"/t/a.md", "a.md", false, some 3, 0⟩, (1 : ℚ) / 4⟩,
     ⟨⟨"/t/b.py", "b.py", false, some 9, 0⟩, (1 : ℚ) / 2⟩] 1 ".py"
    (.leafF (.relContains ".py")) (Or.inl rfl) (by decide)

/-- Unfolding `(a :: l).getLast?` through `Option.or`. -/
lemma getLast?_cons_or {α : Type} (a : α) (l : List α) :
    (a :: l).getLast? = l.getLast?.or (some a) := by
  induction l generalizing a with
  | nil => rfl
  | cons b l ih =>
    rw [List.getLast?_cons_cons, ih b]
    cases hl : l.getLast? <;> simp

lemma extractPathFilter_go : ∀ (conds : List Cond) (acc : List Cond) (pf : Option String),
    conds.foldl
        (fun acc c =>
          match c with
          | .relContains s => (acc.1, some s)
          | c => (acc.1 ++ [c], acc.2))
        ((acc, pf) : List Cond × Option String) =
      (acc ++ conds.filter (fun c => !c.isRelContains),
        ((conds.filterMap Cond.containsVal).getLast?).or pf) := by
  intro conds
  induction conds with
  | nil => intro acc pf; simp
  | cons c cs ih =>
    intro acc pf
    cases c with
    | relContains s =>
      simp only [List.foldl_cons, ih, List.filter_cons, Cond.isRelContains,
        Bool.not_true, List.filterMap_cons, Cond.containsVal]
      rw [getLast?_cons_or]
      cases hl : (cs.filterMap Cond.containsVal).getLast? <;> simp [hl]
    | sizeGt m =>
      simp only [List.foldl_cons, ih, List.filter_cons, Cond.isRelContains,
        Bool.not_false, List.filterMap_cons, Cond.containsVal]
      simp [List.append_assoc]
    | sizeLt m =>
      simp only [List.foldl_cons, ih, List.filter_cons, Cond.isRelContains,
        Bool.not_false, List.filterMap_cons, Cond.containsVal]
      simp [List.append_assoc]
    | isDirEq b =>
      simp only [List.foldl_cons, ih, List.filter_cons, Cond.isRelContains,
        Bool.not_false, List.filterMap_cons, Cond.containsVal]
      simp [List.append_assoc]

/-- Claim C10: when an `$and` list holds several `relative_path $contains`
leaves, only the last one is enforced: `extract_path_filter` removes every
`$contains` leaf from the native filter and keeps only the last substring
as the in-process filter, so a search with two `$contains` leaves behaves
exactly like a search with only the second one — results need not contain
the earlier substring. -/
theorem c10_last_contains_wins (conds : List Cond) (storeCnt : Nat)
    (cands : List Candidate) (n : Nat) (a b : String) :
    (extractPathFilter conds).1 = conds.filter (fun c => !c.isRelContains) ∧
    (extractPathFilter conds).2 = (conds.filterMap Cond.containsVal).getLast? ∧
    search storeCnt cands n (.andF [.relContains a, .relContains b]) =
      search storeCnt cands n (.leafF (.relContains b)) := by
  have hgo := extractPathFilter_go conds [] none
  refine ⟨?_, ?_, ?_⟩
  · rw [extractPathFilter, hgo]; simp
  · rw [extractPathFilter, hgo]
    cases hl : (conds.filterMap Cond.containsVal).getLast? <;> simp [hl]
  · simp [search, splitFilters, extractPathFilter, List.foldl]

/-! ### Store lemmas, and claims C4 and C9 -/

lemma storeLookup_nil (id : String) : storeLookup [] id = none := rfl

lemma storeLookup_cons (kv : String × Item) (rest : Store) (id : String) :
    storeLookup (kv :: rest) id =
      if kv.1 = id then some kv.2 else storeLookup rest id := by
  by_cases h : kv.1 = id <;> simp [storeLookup, List.find?_cons, h]

lemma storeLookup_upsertOne_self (s : Store) (id : String) (it : Item) :
    storeLookup (upsertOne s id it) id = some it := by
  induction s with
  | nil => simp [upsertOne, storeLookup_cons]
  | cons kv rest ih =>
    by_cases hk : kv.1 = id
    · simp [upsertOne, hk, storeLookup_cons]
    · simp [upsertOne, hk, storeLookup_cons, ih]

lemma storeLookup_upsertOne_ne (s : Store) {id id' : String} (it' : Item)
    (h : id ≠ id') : storeLookup (upsertOne s id' it') id = storeLookup s id := by
  induction s with
  | nil =>
    rw [show upsertOne [] id' it' = [(id', it')] from rfl, storeLookup_cons]
    simp [Ne.symm h]
  | cons kv rest ih =>
    by_cases hk : kv.1 = id'
    · rw [show upsertOne (kv :: rest) id' it' = (id', it') :: rest from by
        simp [upsertOne, hk], storeLookup_cons, storeLookup_cons]
      rw [if_neg (Ne.symm h), if_neg (by rw [hk]; exact Ne.symm h)]
    · rw [show upsertOne (kv :: rest) id' it' = kv :: upsertOne rest id' it' from by
        simp [upsertOne, hk], storeLookup_cons, storeLookup_cons, ih]

lemma hasKey_upsertOne (s : Store) (id id' : String) (it' : Item) :
    hasKey (upsertOne s id' it') id = (hasKey s id || id' = id) := by
  induction s with
  | nil => simp [upsertOne, hasKey]
  | cons kv rest ih =>
    by_cases hk : kv.1 = id'
    · subst hk
      simp only [upsertOne, if_pos rfl]
      by_cases hi : kv.1 = id <;> simp [hasKey, hi]
    · simp only [upsertOne, if_neg hk]
      by_cases hi : kv.1 = id
      · simp [hasKey, hi]
      · simpa [hasKey, List.any_cons, hi] using ih

lemma storeCount_upsertOne (s : Store) (id : String) (it : Item) :
    storeCount (upsertOne s id it) =
      if hasKey s id then storeCount s else storeCount s + 1 := by
  induction s with
  | nil => simp [upsertOne, hasKey, storeCount]
  | cons kv rest ih =>
    by_cases hk : kv.1 = id
    · simp [upsertOne, hk, hasKey, storeCount]
    · have hkey : hasKey (kv :: rest) id = hasKey rest id := by
        simp [hasKey, List.any_cons, hk]
      rw [show upsertOne (kv :: rest) id it = kv :: upsertOne rest id it from by
        simp [upsertOne, hk]]
      rw [show storeCount (kv :: upsertOne rest id it) =
        storeCount (upsertOne rest id it) + 1 from rfl, ih, hkey]
      by_cases hr : hasKey rest id <;> simp [hr, storeCount]

lemma storeLookup_upsertBatch_preserved (items : List (String × Item)) :
    ∀ (s : Store) (id : String), (∀ y ∈ items, y.1 ≠ id) →
      storeLookup (upsertBatch s items) id = storeLookup s id := by
  induction items with
  | nil => intro s id _; rfl
  | cons x rest ih =>
    intro s id h
    have hx : x.1 ≠ id := h x (List.mem_cons_self x rest)
    have : upsertBatch s (x :: rest) = upsertBatch (upsertOne s x.1 x.2) rest := rfl
    rw [this, ih _ id (fun y hy => h y (List.mem_cons_of_mem x hy)),
      storeLookup_upsertOne_ne _ _ (fun hh => hx hh.symm)]

lemma storeLookup_upsertBatch_mem (items : List (String × Item)) :
    ∀ (s : Store) (p : String) (v : Item),
      (∀ x ∈ items, x.1 = p → x = (p, v)) → (p, v) ∈ items →
      storeLookup (upsertBatch s items) p = some v := by
  induction items with
  | nil => intro s p v _ hmem; simp at hmem
  | cons x rest ih =>
    intro s p v hfun hmem
    have hstep : upsertBatch s (x :: rest) = upsertBatch (upsertOne s x.1 x.2) rest := rfl
    by_cases hrest : ∃ y ∈ rest, y.1 = p
    · obtain ⟨y, hy, hyp⟩ := hrest
      have : y = (p, v) := hfun y (List.mem_cons_of_mem x hy) hyp
      subst this
      exact hstep ▸ ih _ p v (fun z hz hzp => hfun z (List.mem_cons_of_mem x hz) hzp) hy
    · have hx : x = (p, v) := by
        rcases List.mem_cons.mp hmem with h | h
        · exact h.symm
        · exact absurd ⟨(p, v), h, rfl⟩ hrest
      subst hx
      rw [hstep, storeLookup_upsertBatch_preserved rest _ p
        (fun y hy hyp => hrest ⟨y, hy, hyp⟩), storeLookup_upsertOne_self]

lemma hasKey_upsertBatch_mono (items : List (String × Item)) :
    ∀ (s : Store) (id : String), hasKey s id = true →
      hasKey (upsertBatch s items) id = true := by
  induction items with
  | nil => intro s id h; exact h
  | cons x rest ih =>
    intro s id h
    exact ih _ id (by rw [hasKey_upsertOne, h, Bool.true_or])

lemma hasKey_upsertBatch_of_mem (items : List (String × Item)) :
    ∀ (s : Store) (x : String × Item), x ∈ items →
      hasKey (upsertBatch s items) x.1 = true := by
  induction items with
  | nil => intro s x h; simp at h
  | cons y rest ih =>
    intro s x hx
    rcases List.mem_cons.mp hx with h | h
    · subst h
      exact hasKey_upsertBatch_mono rest _ x.1
        (by rw [hasKey_upsertOne]; simp)
    · exact ih _ x h

lemma storeCount_upsertBatch_subset (items : List (String × Item)) :
    ∀ (s : Store), (∀ x ∈ items, hasKey s x.1 = true) →
      storeCount (upsertBatch s items) = storeCount s ∧
      (∀ id, hasKey (upsertBatch s items) id = hasKey s id) := by
  induction items with
  | nil => intro s _; exact ⟨rfl, fun _ => rfl⟩
  | cons x rest ih =>
    intro s h
    have hx : hasKey s x.1 = true := h x (List.mem_cons_self x rest)
    have hkeys : ∀ id, hasKey (upsertOne s x.1 x.2) id = hasKey s id := by
      intro id
      rw [hasKey_upsertOne]
      by_cases hi : x.1 = id
      · subst hi; simp [hx]
      · simp [hi]
    have hnext : ∀ y ∈ rest, hasKey (upsertOne s x.1 x.2) y.1 = true := by
      intro y hy
      rw [hkeys y.1]
      exact h y (List.mem_cons_of_mem x hy)
    have := ih (upsertOne s x.1 x.2) hnext
    refine ⟨?_, ?_⟩
    · have hcnt : storeCount (upsertOne s x.1 x.2) = storeCount s := by
        rw [storeCount_upsertOne, if_pos hx]
      exact (this.1.trans hcnt)
    · intro id
      exact (this.2 id).trans (hkeys id)

lemma processPath_key {stat : String → Option StatInfo} {snip : String → String}
    {root p : String} {pr : String × Item}
    (h : processPath stat snip root p = some pr) : pr.1 = p := by
  unfold processPath at h
  cases hst : stat p with
  | none => rw [hst] at h; simp at h
  | some st => rw [hst] at h; simp at h; rw [← h]

lemma applyBatches_cons (stat : String → Option StatInfo) (snip : String → String)
    (root : String) (s : Store) (b : List String) (bs : List (List String)) :
    applyBatches stat snip root s (b :: bs) =
      applyBatches stat snip root
        (let items := b.filterMap (processPath stat snip root)
         if items.isEmpty then s else upsertBatch s items) bs := rfl

lemma applyBatches_lookup_preserved (stat : String → Option StatInfo)
    (snip : String → String) (root : String) :
    ∀ (bs : List (List String)) (s : Store) (id : String),
      (∀ q ∈ bs.flatten, q ≠ id) →
      storeLookup (applyBatches stat snip root s bs) id = storeLookup s id := by
  intro bs
  induction bs with
  | nil => intro s id _; rfl
  | cons b rest ih =>
    intro s id h
    rw [applyBatches_cons]
    have hpre : ∀ y ∈ b.filterMap (processPath stat snip root), y.1 ≠ id := by
      intro y hy
      obtain ⟨q, hq, hqy⟩ := List.mem_filterMap.mp hy
      rw [processPath_key hqy]
      exact h q (List.mem_flatten.mpr ⟨b, List.mem_cons_self b rest, hq⟩)
    have htail : ∀ q ∈ rest.flatten, q ≠ id := by
      intro q hq
      obtain ⟨l, hl, hql⟩ := List.mem_flatten.mp hq
      exact h q (List.mem_flatten.mpr ⟨l, List.mem_cons_of_mem b hl, hql⟩)
    rw [ih _ id htail]
    by_cases he : (b.filterMap (processPath stat snip root)).isEmpty
    · simp [he]
    · simp only [he, if_false]
      exact storeLookup_upsertBatch_preserved _ s id hpre

lemma applyBatches_lookup (stat : String → Option StatInfo)
    (snip : String → String) (root : String) :
    ∀ (bs : List (List String)) (s : Store) (p : String) (pr : String × Item),
      p ∈ bs.flatten → processPath stat snip root p = some pr →
      storeLookup (applyBatches stat snip root s bs) pr.1 = some pr.2 := by
  intro bs
  induction bs with
  | nil => intro s p pr hp _; simp at hp
  | cons b rest ih =>
    intro s p pr hp hpr
    have hkey : pr.1 = p := processPath_key hpr
    by_cases hrest : p ∈ rest.flatten
    · rw [applyBatches_cons]
      exact ih _ p pr hrest hpr
    · have hb : p ∈ b := by
        obtain ⟨l, hl, hql⟩ := List.mem_flatten.mp hp
        rcases List.mem_cons.mp hl with h | h
        · exact h ▸ hql
        · exact absurd (List.mem_flatten.mpr ⟨l, h, hql⟩) hrest
      have hmem : (pr.1, pr.2) ∈ b.filterMap (processPath stat snip root) := by
        rw [Prod.mk.eta]
        exact List.mem_filterMap.mpr ⟨p, hb, hpr⟩
      have hfun : ∀ x ∈ b.filterMap (processPath stat snip root),
          x.1 = pr.1 → x = (pr.1, pr.2) := by
        intro x hx hxk
        obtain ⟨q, _, hqx⟩ := List.mem_filterMap.mp hx
        have hq : q = p := by rw [← processPath_key hqx, hxk, hkey]
        subst hq
        rw [hqx] at hpr
        rw [Option.some.inj hpr, Prod.mk.eta]
      have hne : (b.filterMap (processPath stat snip root)).isEmpty = false := by
        cases hh : (b.filterMap (processPath stat snip root)) with
        | nil => rw [hh] at hmem; simp at hmem
        | cons hd tl => simp [hh]
      rw [applyBatches_cons]
      simp only [hne, if_false]
      have hpres : ∀ q ∈ rest.flatten, q ≠ pr.1 := by
        intro q hq hqe
        rw [hqe, hkey] at hq
        exact hrest hq
      rw [applyBatches_lookup_preserved stat snip root rest _ pr.1 hpres]
      exact storeLookup_upsertBatch_mem _ _ pr.1 pr.2 hfun hmem

lemma applyBatches_hasKey_of_mem (stat : String → Option StatInfo)
    (snip : String → String) (root : String) :
    ∀ (bs : List (List String)) (s : Store) (p : String) (pr : String × Item),
      p ∈ bs.flatten → processPath stat snip root p = some pr →
      hasKey (applyBatches stat snip root s bs) p = true := by
  intro bs s p pr hp hpr
  have := applyBatches_lookup stat snip root bs s p pr hp hpr
  rw [processPath_key hpr] at this
  unfold hasKey
  rw [List.any_eq_true]
  unfold storeLookup at this
  cases hf : (applyBatches stat snip root s bs).find? (fun kv => kv.1 = p) with
  | none => rw [hf] at this; simp at this
  | some kv =>
    refine ⟨kv, List.mem_of_find?_eq_some hf, ?_⟩
    have := List.find?_some hf
    simpa using this

lemma applyBatches_count_preserved (stat : String → Option StatInfo)
    (snip : String → String) (root : String) :
    ∀ (bs : List (List String)) (t : Store),
      (∀ p ∈ bs.flatten, ∀ pr, processPath stat snip root p = some pr →
        hasKey t p = true) →
      storeCount (applyBatches stat snip root t bs) = storeCount t ∧
      (∀ id, hasKey (applyBatches stat snip root t bs) id = hasKey t id) := by
  intro bs
  induction bs with
  | nil => intro t _; exact ⟨rfl, fun _ => rfl⟩
  | cons b rest ih =>
    intro t h
    have hitems : ∀ x ∈ b.filterMap (processPath stat snip root), hasKey t x.1 = true := by
      intro x hx
      obtain ⟨q, hq, hqx⟩ := List.mem_filterMap.mp hx
      rw [processPath_key hqx]
      exact h q (List.mem_flatten.mpr ⟨b, List.mem_cons_self b rest, hq⟩) x hqx
    rw [applyBatches_cons]
    by_cases he : (b.filterMap (processPath stat snip root)).isEmpty
    · simp only [he, if_true]
      exact ih t (fun p hp pr hpr => by
        obtain ⟨l, hl, hql⟩ := List.mem_flatten.mp hp
        exact h p (List.mem_flatten.mpr ⟨l, List.mem_cons_of_mem b hl, hql⟩) pr hpr)
    · simp only [he, if_false]
      have hbatch := storeCount_upsertBatch_subset _ t hitems
      have htail := ih (upsertBatch t (b.filterMap (processPath stat snip root)))
        (fun p hp pr hpr => by
          rw [hbatch.2 p]
          obtain ⟨l, hl, hql⟩ := List.mem_flatten.mp hp
          exact h p (List.mem_flatten.mpr ⟨l, List.mem_cons_of_mem b hl, hql⟩) pr hpr)
      refine ⟨htail.1.trans hbatch.1, fun id => (htail.2 id).trans (hbatch.2 id)⟩

lemma buildLoop_nocancel (stat : String → Option StatInfo) (snip : String → String)
    (root : String) (total : Nat) :
    ∀ (bs : List (List String)) (store : Store) (idx : Nat),
      (buildLoop stat snip root (fun _ => false) total store bs idx).1 =
        applyBatches stat snip root store bs := by
  intro bs
  induction bs with
  | nil => intro store idx; rfl
  | cons b rest ih =>
    intro store idx
    simp only [buildLoop, if_neg (by simp : ¬false = true)]
    rw [applyBatches_cons]
    exact ih _ (idx + 1)

lemma buildLoop_cancel_first (stat : String → Option StatInfo) (snip : String → String)
    (root : String) (cancel : Nat → Bool) (total : Nat) :
    ∀ (i : Nat) (bs : List (List String)) (idx : Nat) (store : Store),
      (∀ j < i, cancel (idx + j) = false) → cancel (idx + i) = true → i < bs.length →
      ∃ msgs, buildLoop stat snip root cancel total store bs idx =
        (applyBatches stat snip root store (bs.take i), msgs, true) := by
  intro i
  induction i with
  | zero =>
    intro bs idx store h1 h2 h3
    cases bs with
    | nil => simp at h3
    | cons b bs =>
      refine ⟨[], ?_⟩
      rw [Nat.add_zero] at h2
      simp [buildLoop, h2, applyBatches]
  | succ i ih =>
    intro bs idx store h1 h2 h3
    cases bs with
    | nil => simp at h3
    | cons b bs =>
      have hc0 : cancel idx = false := by
        have := h1 0 (by omega); simpa using this
      have h1' : ∀ j < i, cancel (idx + 1 + j) = false := by
        intro j hj
        have := h1 (j + 1) (by omega)
        rw [show idx + 1 + j = idx + (j + 1) by omega]
        exact this
      have h2' : cancel (idx + 1 + i) = true := by
        rw [show idx + 1 + i = idx + (i + 1) by omega]
        exact h2
      obtain ⟨msgs, hrec⟩ := ih bs (idx + 1)
        (let items := b.filterMap (processPath stat snip root)
         if items.isEmpty then store else upsertBatch store items)
        h1' h2' (by simpa using Nat.lt_of_succ_lt_succ h3)
      refine ⟨Status.processingBatch (idx + 1) (min ((idx + 1) * 128) total) total :: msgs, ?_⟩
      simp only [buildLoop, hc0, if_neg (by simp : ¬false = true)]
      rw [List.take_succ_cons, applyBatches_cons]
      simp only at hrec
      rw [hrec]

/-- Claim C4: if the cooperative cancellation flag is first observed set at
the batch boundary opening batch `i+1` (checks `0 .. i-1` saw it unset,
check `i` sees it set, and batch `i+1` exists), then no further upserts
happen: the final store is exactly the store after the first `i` batches;
every item committed by those batches is still retrievable from the store
by its id; and the last yielded status is the cancellation status carrying
the store's current size. -/
theorem c4_cancellation (stat : String → Option StatInfo) (snip : String → String)
    (root : String) (store : Store) (allPaths : List String)
    (cancel : Nat → Bool) (i : Nat)
    (h1 : ∀ j < i, cancel j = false) (h2 : cancel i = true)
    (h3 : i < (chunkList 128 allPaths).length) :
    (runBuild stat snip root true allPaths false cancel store).1 =
      applyBatches stat snip root store ((chunkList 128 allPaths).take i) ∧
    (∀ p ∈ ((chunkList 128 allPaths).take i).flatten, ∀ pr,
        processPath stat snip root p = some pr →
        storeLookup (runBuild stat snip root true allPaths false cancel store).1 pr.1 =
          some pr.2) ∧
    (runBuild stat snip root true allPaths false cancel store).2.getLast? =
      some (.cancelled
        (storeCount (runBuild stat snip root true allPaths false cancel store).1)) := by
  obtain ⟨msgs, hloop⟩ := buildLoop_cancel_first stat snip root cancel allPaths.length
    i (chunkList 128 allPaths) 0 store (fun j hj => by simpa using h1 j hj)
    (by simpa using h2) h3
  have hrb : runBuild stat snip root true allPaths false cancel store =
      (applyBatches stat snip root store ((chunkList 128 allPaths).take i),
        [Status.scanning, Status.scanComplete allPaths.length] ++ msgs ++
          [Status.cancelled (storeCount
            (applyBatches stat snip root store ((chunkList 128 allPaths).take i)))]) := by
    simp only [runBuild, Bool.not_true, if_neg (by simp : ¬false = true), hloop]
    simp
  rw [hrb]
  refine ⟨rfl, ?_, ?_⟩
  · intro p hp pr hpr
    exact applyBatches_lookup stat snip root _ store p pr hp hpr
  · rw [show ([Status.scanning, Status.scanComplete allPaths.length] ++ msgs ++
        [Status.cancelled (storeCount
          (applyBatches stat snip root store ((chunkList 128 allPaths).take i)))]) =
        ([Status.scanning, Status.scanComplete allPaths.length] ++ msgs) ++
        [Status.cancelled (storeCount
          (applyBatches stat snip root store ((chunkList 128 allPaths).take i)))] by
      simp [List.append_assoc]]
    rw [List.getLast?_concat]

/-- Claim C9: building the index twice over the same unchanged tree (same
scanned paths, same stat results) yields the same final store size as
building once: each item's identity is its canonical path, and upserting a
batch replaces prior content for the same identity keys. -/
theorem c9_build_idempotent (stat : String → Option StatInfo) (snip : String → String)
    (root : String) (store : Store) (allPaths : List String) :
    storeCount (runBuild stat snip root true allPaths false (fun _ => false)
        (runBuild stat snip root true allPaths false (fun _ => false) store).1).1 =
      storeCount (runBuild stat snip root true allPaths false (fun _ => false) store).1 := by
  have hrb : ∀ st : Store, (runBuild stat snip root true allPaths false (fun _ => false) st).1 =
      applyBatches stat snip root st (chunkList 128 allPaths) := by
    intro st
    simp only [runBuild, Bool.not_true, if_neg (by simp : ¬false = true)]
    exact buildLoop_nocancel stat snip root allPaths.length _ st 0
  simp only [hrb]
  exact (applyBatches_count_preserved stat snip root (chunkList 128 allPaths)
    (applyBatches stat snip root store (chunkList 128 allPaths))
    (fun p hp pr hpr =>
      applyBatches_hasKey_of_mem stat snip root (chunkList 128 allPaths) store p pr hp hpr)).1

set_option maxRecDepth 4000 in
/-- Claim C4 witness: 129 one-byte files (two batches of sizes 128 and 1),
cancellation first observed at the check opening batch 2: the store holds
exactly batch 1, item `17` is retrievable, and the last status is the
cancellation status with the current store size. -/
theorem c4_cancellation_witness :
    ((runBuild (fun _ => some ⟨1, 2, false⟩) (fun _ => "") "r" true
        ((List.range 129).map (fun n => toString n)) false (fun j => decide (1 ≤ j)) []).1 =
      applyBatches (fun _ => some ⟨1, 2, false⟩) (fun _ => "") "r" []
        ((chunkList 128 ((List.range 129).map (fun n => toString n))).take 1)) ∧
    (∀ p ∈ ((chunkList 128 ((List.range 129).map (fun n => toString n))).take 1).flatten,
      ∀ pr, processPath (fun _ => some ⟨1, 2, false⟩) (fun _ => "") "r" p = some pr →
        storeLookup (runBuild (fun _ => some ⟨1, 2, false⟩) (fun _ => "") "r" true
          ((List.range 129).map (fun n => toString n)) false (fun j => decide (1 ≤ j)) []).1
          pr.1 = some pr.2) ∧
    (runBuild (fun _ => some ⟨1, 2, false⟩) (fun _ => "") "r" true
        ((List.range 129).map (fun n => toString n)) false (fun j => decide (1 ≤ j)) []).2.getLast? =
      some (.cancelled (storeCount (runBuild (fun _ => some ⟨1, 2, false⟩) (fun _ => "") "r" true
        ((List.range 129).map (fun n => toString n)) false (fun j => decide (1 ≤ j)) []).1)) :=
  c4_cancellation (fun _ => some ⟨1, 2, false⟩) (fun _ => "") "r" []
    ((List.range 129).map (fun n => toString n)) (fun j => decide (1 ≤ j)) 1
    (by decide) (by decide) (by decide)

/-! ## The orchestrator (`src/core/chat_agent.py`)

`get_response_stream` makes one planning call to the gateway, extracts
`<semantic_query>` and `<filters>` from the accumulated response with
`_extract_xml_tag`, searches the index, and either short-circuits on zero
results or streams one synthesis call.  The two gateway calls are modelled
by the chunk lists they would yield (`planChunks`, `synthChunks`), the
index by a search oracle, `json.loads` on the filters payload by `parseF`,
and `json.dumps` in the log message by `dumps`. -/

/-- Python `str.startswith` on `String`s. -/
def pyStartsWith (s pre : String) : Bool := startsWithL pre.data s.data

/-- Split at the first occurrence of `pat`: the part before it and the part
after it. -/
def splitAtFirst (pat : List Char) : List Char → Option (List Char × List Char)
  | [] => none
  | s@(c :: rest) =>
    if startsWithL pat s then some ([], s.drop pat.length)
    else (splitAtFirst pat rest).map (fun p => (c :: p.1, p.2))

/-- First-match, non-greedy tagged extraction: the earliest occurrence of
`openT` that is followed (anywhere later) by `closeT`, taking the shortest
content — the semantics of `re.search(f'<tag>(.*?)</tag>', text, DOTALL)`. -/
def findFirstTagged (openT closeT : List Char) : List Char → Option (List Char)
  | [] => none
  | s@(_ :: rest) =>
    if startsWithL openT s then
      match splitAtFirst closeT (s.drop openT.length) with
      | some p => some p.1
      | none => findFirstTagged openT closeT rest
    else findFirstTagged openT closeT rest

/-- Model of `_extract_xml_tag` (`chat_agent.py`, lines 5–7): first regex match,
content stripped; `none` when the tag pair is absent. -/
def extractXmlTag (tag : String) (text : String) : Option String :=
  (findFirstTagged ("<" ++ tag ++ ">").data ("</" ++ tag ++ ">").data text.data).map
    (fun l => String.mk (pyStripL l))

/-- The first yield of `get_response_stream`. -/
def analyzingMsg : String := "🤔 Analyzing request and formulating a search plan..."

/-- The warning yielded when the semantic query is missing (line 87). -/
def warnQueryMsg : String := "⚠️ LLM failed to generate a valid semantic query. Using raw input.\n"

/-- The warning yielded when the filters JSON does not parse (line 93). -/
def warnFilterMsg : String := "⚠️ LLM generated invalid JSON for filters. Ignoring filters.\n"

/-- The suffix of the retrieval-phase emission (line 102). -/
def step2Msg : String := "\n\n### Step 2: Executing Search..."

/-- The synthesis-phase banner (lines 107 and 142). -/
def step3Pre : String := "\n\n### Step 3: Synthesizing Response\n\n"

/-- The suffix of the single no-results emission (line 107). -/
def noResultsMsg : String :=
  step3Pre ++ "I couldn\x27t find any files matching that specific search. The index might be empty, or you could try rephrasing your request."

/-- The string `log_message` (lines 96–101); `dumps` stands for
`json.dumps(metadata_filters, indent=2)`. -/
def renderLog (q dumps : String) : String :=
  "### Step 1: Generated Search Plan\n**Semantic Query:** `" ++ q ++
    "`\n**Metadata Filters:**\n```json\n" ++ dumps ++ "\n```"

/-- The planning accumulation loop (lines 68–79): concatenate chunks until
one starts with `"Error:"`, which aborts the turn with that chunk. -/
def accumulateStream : List String → Except String String
  | [] => .ok ""
  | c :: cs =>
    if pyStartsWith c "Error:" then .error c
    else (accumulateStream cs).map (fun rest => c ++ rest)

/-- The derived plan: the semantic query, the metadata filters and the
warnings yielded, in order (lines 81–94).  An absent or blank
`<semantic_query>` falls back to the raw user input with a warning; an
absent or blank `<filters>` means no filter; unparseable filters JSON is
dropped with a warning. -/
structure PlanOut where
  query : String
  filters : Filters
  warns : List String
deriving DecidableEq

/-- Compute the derived plan from the planning response text. -/
def planDerive (userInput resp : String) (parseF : String → Option Filters) : PlanOut :=
  let sq := extractXmlTag "semantic_query" resp
  let fs := extractXmlTag "filters" resp
  let qw : String × List String :=
    match sq with
    | some s => if s = "" then (userInput, [warnQueryMsg]) else (s, [])
    | none => (userInput, [warnQueryMsg])
  let fw : Filters × List String :=
    match fs with
    | some s =>
      if s = "" then (Filters.noF, [])
      else
        match parseF s with
        | some f => (f, [])
        | none => (Filters.noF, [warnFilterMsg])
    | none => (Filters.noF, [])
  ⟨qw.1, fw.1, qw.2 ++ fw.2⟩

/-- The synthesis streaming loop (lines 132–144): each non-error chunk
extends `full_response` and re-emits the full snapshot; an error chunk is
yielded alone and ends the turn. -/
def synthGo (logMsg : String) : String → List String → List String
  | _, [] => []
  | full, c :: cs =>
    if pyStartsWith c "Error:" then [c]
    else (logMsg ++ step3Pre ++ (full ++ c)) :: synthGo logMsg (full ++ c) cs

/-- All synthesis-phase emissions. -/
def synthPhase (logMsg : String) (chunks : List String) : List String :=
  synthGo logMsg "" chunks

/-- The observable outcome of one orchestration turn: the yielded strings,
the query/filters actually handed to `explorer.search` (`none` when the
turn aborted before retrieval), and the number of Synthesizing-phase
gateway calls. -/
structure TurnResult where
  emissions : List String
  searched : Option (String × Filters)
  synthCalls : Nat
deriving DecidableEq

/-- Model of `get_response_stream`: planning (one gateway call, not counted in
`synthCalls`), plan derivation, retrieval, then either the single
no-results emission or the synthesis stream.  (The `search_results[:10]`
truncation only shapes the synthesis prompt, which is absorbed into the
`synthChunks` oracle.) -/
def runTurn (userInput : String) (planChunks synthChunks : List String)
    (searchO : String → Filters → List SearchResult)
    (parseF : String → Option Filters) (dumps : Filters → String) : TurnResult :=
  match accumulateStream planChunks with
  | .error e => ⟨[analyzingMsg, "Error during query generation: " ++ e], none, 0⟩
  | .ok resp =>
    let p := planDerive userInput resp parseF
    let logMsg := renderLog p.query (dumps p.filters)
    let results := searchO p.query p.filters
    if results.isEmpty then
      ⟨[analyzingMsg] ++ p.warns ++ [logMsg ++ step2Msg, logMsg ++ noResultsMsg],
        some (p.query, p.filters), 0⟩
    else
      ⟨[analyzingMsg] ++ p.warns ++ [logMsg ++ step2Msg] ++ synthPhase logMsg synthChunks,
        some (p.query, p.filters), 1⟩

lemma take_length_append {α : Type} (l₁ l₂ : List α) :
    (l₁ ++ l₂).take l₁.length = l₁ := by
  induction l₁ with
  | nil => simp
  | cons a l ih => simp [ih]

lemma take_banner_two {α : Type} (a x y : α) (w : List α) :
    ([a] ++ w ++ [x, y]).take (1 + w.length + 1) = [a] ++ w ++ [x] := by
  have h1 : ([a] ++ w ++ [x, y] : List α) = ([a] ++ w ++ [x]) ++ [y] := by simp
  have h2 : 1 + w.length + 1 = ([a] ++ w ++ [x]).length := by
    simp only [List.length_append, List.length_cons, List.length_nil]
  rw [h1, h2, take_length_append]

lemma take_banner_rest {α : Type} (a x : α) (w rest : List α) :
    ([a] ++ w ++ [x] ++ rest).take (1 + w.length + 1) = [a] ++ w ++ [x] := by
  have h1 : ([a] ++ w ++ [x] ++ rest : List α) = ([a] ++ w ++ [x]) ++ rest := by simp
  have h2 : 1 + w.length + 1 = ([a] ++ w ++ [x]).length := by
    simp only [List.length_append, List.length_cons, List.length_nil]
  rw [h1, h2, take_length_append]

lemma runTurn_ok (userInput : String) (planChunks synthChunks : List String)
    (searchO : String → Filters → List SearchResult)
    (parseF : String → Option Filters) (dumps : Filters → String) (resp : String)
    (hplan : accumulateStream planChunks = .ok resp) :
    runTurn userInput planChunks synthChunks searchO parseF dumps =
      (if (searchO (planDerive userInput resp parseF).query
            (planDerive userInput resp parseF).filters).isEmpty then
        ⟨[analyzingMsg] ++ (planDerive userInput resp parseF).warns ++
            [renderLog (planDerive userInput resp parseF).query
                (dumps (planDerive userInput resp parseF).filters) ++ step2Msg,
              renderLog (planDerive userInput resp parseF).query
                (dumps (planDerive userInput resp parseF).filters) ++ noResultsMsg],
          some ((planDerive userInput resp parseF).query,
            (planDerive userInput resp parseF).filters), 0⟩
      else
        ⟨[analyzingMsg] ++ (planDerive userInput resp parseF).warns ++
            [renderLog (planDerive userInput resp parseF).query
                (dumps (planDerive userInput resp parseF).filters) ++ step2Msg] ++
            synthPhase (renderLog (planDerive userInput resp parseF).query
              (dumps (planDerive userInput resp parseF).filters)) synthChunks,
          some ((planDerive userInput resp parseF).query,
            (planDerive userInput resp parseF).filters), 1⟩) := by
  unfold runTurn
  rw [hplan]

/-- Claim C6: in a turn whose planning call accumulates successfully and
whose retrieval returns zero results, the orchestrator makes zero
Synthesizing-phase gateway calls and its emissions end with exactly one
final explanatory message: the full emission list is the analyzing banner,
the plan warnings, the retrieval-phase log emission, and one closing
no-results message. -/
theorem c6_zero_results_short_circuit (userInput : String)
    (planChunks synthChunks : List String)
    (searchO : String → Filters → List SearchResult)
    (parseF : String → Option Filters) (dumps : Filters → String) (resp : String)
    (hplan : accumulateStream planChunks = .ok resp)
    (hempty : searchO (planDerive userInput resp parseF).query
        (planDerive userInput resp parseF).filters = []) :
    (runTurn userInput planChunks synthChunks searchO parseF dumps).synthCalls = 0 ∧
    (runTurn userInput planChunks synthChunks searchO parseF dumps).emissions =
      [analyzingMsg] ++ (planDerive userInput resp parseF).warns ++
        [renderLog (planDerive userInput resp parseF).query
            (dumps (planDerive userInput resp parseF).filters) ++ step2Msg,
          renderLog (planDerive userInput resp parseF).query
            (dumps (planDerive userInput resp parseF).filters) ++ noResultsMsg] := by
  rw [runTurn_ok userInput planChunks synthChunks searchO parseF dumps resp hplan]
  rw [hempty]
  simp

/-- Claim C6 witness: a planning response carrying a semantic query, a
search oracle returning no results: zero synthesis calls and the
characterized emission list. -/
theorem c6_zero_results_witness :
    (runTurn "u" ["<semantic_query>q1</semantic_query>"] ["chunk"]
        (fun _ _ => []) (fun _ => none) (fun _ => "null")).synthCalls = 0 ∧
    (runTurn "u" ["<semantic_query>q1</semantic_query>"] ["chunk"]
        (fun _ _ => []) (fun _ => none) (fun _ => "null")).emissions =
      [analyzingMsg] ++
        (planDerive "u" "<semantic_query>q1</semantic_query>" (fun _ => none)).warns ++
        [renderLog (planDerive "u" "<semantic_query>q1</semantic_query>" (fun _ => none)).query
            ("null") ++ step2Msg,
          renderLog (planDerive "u" "<semantic_query>q1</semantic_query>" (fun _ => none)).query
            ("null") ++ noResultsMsg] :=
  c6_zero_results_short_circuit "u" ["<semantic_query>q1</semantic_query>"] ["chunk"]
    (fun _ _ => []) (fun _ => none) (fun _ => "null")
    "<semantic_query>q1</semantic_query>" rfl rfl

/-- Claim C7: in a turn whose planning call accumulates successfully but
whose response has no `<semantic_query>` tag, the derived query is the
verbatim raw user utterance, the missing-query warning is the first
warning (emission index 1, before the retrieval-phase log emission), the
turn continues to retrieval (the index is searched with the raw
utterance), and the emissions begin with the analyzing banner, the
warnings, and the retrieval-phase log emission. -/
theorem c7_plan_degradation (userInput : String) (planChunks synthChunks : List String)
    (searchO : String → Filters → List SearchResult)
    (parseF : String → Option Filters) (dumps : Filters → String) (resp : String)
    (hplan : accumulateStream planChunks = .ok resp)
    (hmiss : extractXmlTag "semantic_query" resp = none) :
    (planDerive userInput resp parseF).query = userInput ∧
    (planDerive userInput resp parseF).warns.head? = some warnQueryMsg ∧
    (runTurn userInput planChunks synthChunks searchO parseF dumps).searched =
      some (userInput, (planDerive userInput resp parseF).filters) ∧
    (runTurn userInput planChunks synthChunks searchO parseF dumps).emissions.take
        (1 + (planDerive userInput resp parseF).warns.length + 1) =
      [analyzingMsg] ++ (planDerive userInput resp parseF).warns ++
        [renderLog userInput
          (dumps (planDerive userInput resp parseF).filters) ++ step2Msg] := by
  have hq : (planDerive userInput resp parseF).query = userInput := by
    simp [planDerive, hmiss]
  have hw : (planDerive userInput resp parseF).warns.head? = some warnQueryMsg := by
    simp [planDerive, hmiss]
  have hrt := runTurn_ok userInput planChunks synthChunks searchO parseF dumps resp hplan
  refine ⟨hq, hw, ?_, ?_⟩
  · rw [hrt]
    by_cases hres : (searchO (planDerive userInput resp parseF).query
        (planDerive userInput resp parseF).filters).isEmpty
    · rw [if_pos hres]
      simp [hq]
    · rw [if_neg hres]
      simp [hq]
  · rw [hrt]
    by_cases hres : (searchO (planDerive userInput resp parseF).query
        (planDerive userInput resp parseF).filters).isEmpty
    · rw [if_pos hres]
      have := take_banner_two analyzingMsg
        (renderLog userInput (dumps (planDerive userInput resp parseF).filters) ++ step2Msg)
        (renderLog userInput (dumps (planDerive userInput resp parseF).filters) ++ noResultsMsg)
        (planDerive userInput resp parseF).warns
      simpa [hq] using this
    · rw [if_neg hres]
      have := take_banner_rest analyzingMsg
        (renderLog userInput (dumps (planDerive userInput resp parseF).filters) ++ step2Msg)
        (planDerive userInput resp parseF).warns
        (synthPhase (renderLog userInput (dumps (planDerive userInput resp parseF).filters))
          synthChunks)
      simpa [hq] using this

/-- Claim C7 witness: a planning response with no tags at all: the query
falls back to the raw input `"u"`, the warning precedes retrieval, and the
emissions are as characterized. -/
theorem c7_plan_degradation_witness :
    (planDerive "u" "hello" (fun _ => none)).query = "u" ∧
    (planDerive "u" "hello" (fun _ => none)).warns.head? = some warnQueryMsg ∧
    (runTurn "u" ["hello"] [] (fun _ _ => []) (fun _ => none) (fun _ => "")).searched =
      some ("u", (planDerive "u" "hello" (fun _ => none)).filters) ∧
    (runTurn "u" ["hello"] [] (fun _ _ => []) (fun _ => none) (fun _ => "")).emissions.take
        (1 + (planDerive "u" "hello" (fun _ => none)).warns.length + 1) =
      [analyzingMsg] ++ (planDerive "u" "hello" (fun _ => none)).warns ++
        [renderLog "u" ("") ++ step2Msg] :=
  c7_plan_degradation "u" ["hello"] [] (fun _ _ => []) (fun _ => none) (fun _ => "")
    "hello" rfl (by decide)

end SmartFile
